import Mathlib

/-!
Verification development for the obsidian-webpage-export export pipeline.

The definitions below are a shallow embedding of the TypeScript sources:
the Webpage and Index classes (src/plugin/website/webpage.ts), the Website
class (companion implementation, unnamed part_002, plus website.ts), the
shared data model (unnamed part_001) and the legacy plugin entry point
(unnamed part_000).

String utilities are defined over character lists so that every definition
evaluates by kernel reduction. Path manipulation helpers (the Path class in
plugin/utils/path) and the edit distance helper (Utils.levenshteinDistance)
are not part of the provided sources; they are modelled from the spec where
noted.
-/

namespace WebExport

/-- JS String.prototype.startsWith, over character lists. -/
def startsWithS (s pat : String) : Bool := pat.data.isPrefixOf s.data

/-- Helper for splitOnChar: accumulates the current segment. -/
def splitOnCharAux (c : Char) : List Char → List Char → List String
  | [], cur => [String.mk cur.reverse]
  | x :: rest, cur =>
    if x == c then String.mk cur.reverse :: splitOnCharAux c rest []
    else splitOnCharAux c rest (x :: cur)

/-- JS String.prototype.split with a one-character separator. -/
def splitOnChar (c : Char) (s : String) : List String := splitOnCharAux c s.data []

/-- Joins a list of strings with a separator (inverse of splitOnChar). -/
def joinSep (sep : String) : List String → String
  | [] => ""
  | x :: rest =>
    match rest with
    | [] => x
    | _ => x ++ sep ++ joinSep sep rest

/-- JS String.prototype.toLowerCase restricted to ASCII case folding. -/
def toLowerS (s : String) : String := String.mk (s.data.map Char.toLower)

/-- JS String.prototype.trim. -/
def trimS (s : String) : String :=
  String.mk (((s.data.dropWhile Char.isWhitespace).reverse.dropWhile Char.isWhitespace).reverse)

/-- Membership test for a character in a string. -/
def containsS (s : String) (c : Char) : Bool := s.data.contains c

/-- Association list lookup: JS object property read, first binding wins
(alistSet below keeps at most one binding per key). -/
def alistGet {α : Type} : List (String × α) → String → Option α
  | [], _ => none
  | p :: rest, k => if p.1 == k then some p.2 else alistGet rest k

/-- Association list update: JS object property assignment, overwriting an
existing binding or appending a new one. -/
def alistSet {α : Type} : List (String × α) → String → α → List (String × α)
  | [], k, v => [(k, v)]
  | p :: rest, k, v => if p.1 == k then (k, v) :: rest else p :: alistSet rest k v

/-- The subset of ExportPipelineOptions that the embedded code paths read. -/
structure PipelineOptions where
  slugifyPaths : Bool
  exportRoot : String
  relativeHeaderLinks : Bool

/-- The mutable part of WebsiteData maintained by Website.getTargetFilePath:
the source-to-target table, its inverse, and the list of all target paths. -/
structure WebsiteMetadata where
  sourceToTarget : List (String × String)
  targetToSource : List (String × String)
  allFiles : List String

/-- A fresh WebsiteData, as produced by initMetadata on a first run. -/
def emptyMetadata : WebsiteMetadata := ⟨[], [], []⟩

/-- Path.fullName: the last path segment (file name with extension). -/
def fullNameOf (p : String) : String := (splitOnChar '/' p).getLastD p

/-- The directory part of a path, with a trailing slash when nonempty. -/
def dirOf (p : String) : String :=
  let parts := splitOnChar '/' p
  match parts.dropLast with
  | [] => ""
  | ds => joinSep "/" ds ++ "/"

/-- Path.fullName assignment: replaces the last path segment. -/
def setFullName (p name : String) : String := dirOf p ++ name

/-- Path.extensionName: the extension of the last segment, without the dot,
or the empty string when there is none. -/
def extensionName (p : String) : String :=
  let parts := splitOnChar '.' (fullNameOf p)
  match parts with
  | [] => ""
  | [_] => ""
  | _ => parts.getLastD ""

/-- Path.setExtension: replaces (or appends) the extension of the last
segment. -/
def setExtension (p ext : String) : String :=
  let n := fullNameOf p
  let parts := splitOnChar '.' n
  let stem := match parts with
    | [] => n
    | [_] => n
    | _ => joinSep "." parts.dropLast
  dirOf p ++ stem ++ "." ++ ext

/-- Modelled from the spec: the Path slugify transform of the missing
plugin/utils/path module, a web-safe slug form (lowercase, hyphen
separated), applied to the whole path. -/
def slugify (s : String) : String :=
  String.mk (s.data.map (fun c => if c == ' ' then '-' else c.toLower))

/-- Path.slugify is applied only when the slugifyPaths option is set. -/
def slugifyIf (b : Bool) (s : String) : String := if b then slugify s else s

/-- The target string the uncached branch of Website.getTargetFilePath
derives: the source path with its file name optionally replaced, slugified
when the option is set, and stripped of the export root. -/
def deriveTargetOf (opts : PipelineOptions) (sourcePath : String)
    (filename : Option String) : String :=
  let p0 := match filename with
    | some f => setFullName sourcePath f
    | none => sourcePath
  let p1 := slugifyIf opts.slugifyPaths p0
  if startsWithS p1 opts.exportRoot then p1.drop opts.exportRoot.length else p1

/-- Website.getTargetFilePath (companion Website implementation, lines
289-306): returns the cached target for a source path, or derives one by
optionally replacing the file name, slugifying, and stripping the export
root, registering the result in sourceToTarget (unless bypassCache),
targetToSource and allFiles. -/
def getTargetFilePath (opts : PipelineOptions) (st : WebsiteMetadata)
    (sourcePath : String) (filename : Option String) (bypassCache : Bool) :
    String × WebsiteMetadata :=
  match (if bypassCache then none else alistGet st.sourceToTarget sourcePath) with
  | some t => (t, st)
  | none =>
    let p2 := deriveTargetOf opts sourcePath filename
    let s2t := if bypassCache then st.sourceToTarget else alistSet st.sourceToTarget sourcePath p2
    (p2, { sourceToTarget := s2t,
           targetToSource := alistSet st.targetToSource p2 sourcePath,
           allFiles := st.allFiles ++ [p2] })

/-- Website.hasFile: a path is known if it occurs in targetToSource or in
sourceToTarget. -/
def hasFile (st : WebsiteMetadata) (path : String) : Bool :=
  (alistGet st.targetToSource path).isSome || (alistGet st.sourceToTarget path).isSome

/-- The per-file name computed in Website.initMetadata: the source file name
with its extension replaced by html. -/
def htmlFilename (p : String) : String := fullNameOf (setExtension p "html")

/-- The registration loop of Website.initMetadata (companion Website
implementation, lines 219-223): every included source file is pushed through
getTargetFilePath with its html file name. -/
def registerFiles (opts : PipelineOptions) (st : WebsiteMetadata)
    (files : List String) : WebsiteMetadata :=
  files.foldl (fun acc f => (getTargetFilePath opts acc f (some (htmlFilename f)) false).2) st

/-- The target string getTargetFilePath derives for a source file registered
with its html file name, when the cache has no entry for it. -/
def deriveTarget (opts : PipelineOptions) (f : String) : String :=
  deriveTargetOf opts f (some (htmlFilename f))

/-- Webpage.initMetadata, line 149: the modification test is commented out
and replaced by an unconditional assignment marked temp, so every file is
treated as modified. -/
def initIsModified (_sourceMtime _recordedMtime : Nat) : Bool := true

/-- Host application capabilities consumed by the resolver: the metadata
cache link resolution, the app url resolution, and the backlink cache
(keys of app.metadataCache.getBacklinksForFile). -/
structure HostAdapter where
  getFirstLinkpathDest : String → String → Option String
  resolveFileUrl : String → Option String
  backlinkSources : String → List String

/-- The regular expression test in Webpage.resolveLink line 371: one or more
word characters, a colon, then a double slash or a double backslash,
anywhere in the string. -/
def isWordChar (c : Char) : Bool :=
  c.isAlphanum || c == '_'

/-- Scans the character list for the scheme pattern of resolveLink. -/
def schemeMatchAux : List Char → Bool
  | c1 :: c2 :: c3 :: c4 :: rest =>
    (isWordChar c1 && c2 == ':' &&
      ((c3 == '/' && c4 == '/') || (c3 == '\\' && c4 == '\\'))) ||
    schemeMatchAux (c2 :: c3 :: c4 :: rest)
  | _ => false

/-- True when the link matches the external-scheme regular expression of
resolveLink. -/
def schemeMatch (s : String) : Bool := schemeMatchAux s.data

/-- Webpage.headingTextToID: drops colons and turns spaces into
underscores; the null receiver collapses to the empty string. -/
def headingTextToID (heading : Option String) : String :=
  match heading with
  | none => ""
  | some h =>
    String.mk (h.data.foldr
      (fun c acc => if c == ' ' then '_' :: acc else if c == ':' then acc else c :: acc) [])

/-- Replaces every occurrence of a nonempty pattern in a string, with
explicit fuel (only used by the app url fallback parser). -/
def replaceSubAux (pat rep : List Char) : Nat → List Char → List Char
  | 0, s => s
  | _ + 1, [] => []
  | fuel + 1, x :: rest =>
    if pat.isPrefixOf (x :: rest) then
      rep ++ replaceSubAux pat rep fuel ((x :: rest).drop pat.length)
    else
      x :: replaceSubAux pat rep fuel rest

/-- JS String.prototype.replaceAll for string patterns. -/
def replaceSub (s pat rep : String) : String :=
  if pat.data.isEmpty then s
  else String.mk (replaceSubAux pat.data rep.data s.data.length s.data)

/-- Modelled from the spec: the fallback parsing of app urls in
Website.getFilePathFromSrc (strips the app scheme, normalizes separators,
drops the host segment and takes the result as a vault relative path; the
missing Path.getRelativePathFromVault is modelled as the identity on the
already vault relative string). -/
def appFallbackParse (src : String) : String :=
  let p := replaceSub (replaceSub src "app://" "") "\\" "/"
  let firstSeg := (splitOnChar '/' p).headD ""
  replaceSub p (firstSeg ++ "/") ""

/-- Website.getFilePathFromSrc (companion Website implementation, lines
308-349): app urls go through the host resolver with a string-munging
fallback; other sources are split at the hash and resolved through
getFirstLinkpathDest, defaulting to the empty path. -/
def getFilePathFromSrc (host : HostAdapter) (src exportingFilePath : String) : String :=
  if startsWithS src "app://" then
    match host.resolveFileUrl src with
    | some p => if p == "" then appFallbackParse src else p
    | none => appFallbackParse src
  else
    let parts := splitOnChar '#' src
    let path := parts.headD ""
    let hash := (parts.get? 1).map trimS
    let pathString := (host.getFirstLinkpathDest path exportingFilePath).getD ""
    match hash with
    | some h => if h != "" then pathString ++ "#" ++ h else pathString
    | none => pathString

/-- Path.pathname: the path portion before any hash. -/
def pathnameOf (p : String) : String := (splitOnChar '#' p).headD ""

/-- Webpage.resolveLink (webpage.ts lines 368-400): returns the empty
string for a missing link, no target for external schemes, data uris and
bare query strings, a heading id for anchor-only links, and otherwise maps
the path component through getTargetFilePath (which always yields a path,
so the undefined guard at line 391 is unreachable), reattaching the hash.
The preferAttachment parameter of the source is unused by its body and is
omitted. -/
def resolveLink (opts : PipelineOptions) (host : HostAdapter) (st : WebsiteMetadata)
    (templatePath sourcePath : String) (link : Option String) :
    Option String × WebsiteMetadata :=
  match link with
  | none => (some "", st)
  | some l =>
    if l == "" then (some "", st)
    else if !startsWithS l "app://" && schemeMatch l then (none, st)
    else if startsWithS l "data:" then (none, st)
    else if startsWithS l "?" then (none, st)
    else if startsWithS l "#" then
      let hrefValue := headingTextToID (some l)
      let hrefValue := if !opts.relativeHeaderLinks then templatePath ++ hrefValue else hrefValue
      (some hrefValue, st)
    else
      let linkSplit := (splitOnChar '?' ((splitOnChar '#' l).headD "")).headD ""
      let attachmentPath := pathnameOf (getFilePathFromSrc host linkSplit sourcePath)
      let r := getTargetFilePath opts st attachmentPath none false
      let hash0 := ((splitOnChar '#' l).get? 1).getD ""
      let hash1 := if hash0 != "" then "#" ++ hash0 else hash0
      let hash2 := if extensionName r.1 == "html" then headingTextToID (some hash1) else hash1
      (some (r.1 ++ hash2), r.2)

/-- A link or embed element as seen by remapLinks and remapEmbedLinks:
its href or src attribute, the target attribute flag, and the
is-unresolved class flag. -/
structure LinkElement where
  href : Option String
  targetSelf : Bool
  unresolved : Bool
  deriving DecidableEq

/-- One iteration of Webpage.remapLinks (lines 410-418) or
Webpage.remapEmbedLinks (lines 423-431): the attribute becomes the resolved
value when there is one (falling back to the original, then to the empty
string), the target attribute is forced, and the is-unresolved class is
toggled on exactly when the resolved value is nullish or empty. -/
def remapLinkElement (opts : PipelineOptions) (host : HostAdapter) (st : WebsiteMetadata)
    (templatePath sourcePath : String) (el : LinkElement) :
    LinkElement × WebsiteMetadata :=
  let r := resolveLink opts host st templatePath sourcePath el.href
  ({ href := some (match r.1 with
       | some h => h
       | none => el.href.getD "")
     targetSelf := true
     unresolved := match r.1 with
       | some h => h == ""
       | none => true }, r.2)

/-- Webpage.getLinksToOtherPages (webpage.ts lines 71-77): href values that
are not anchors, library files, external http(s) urls or data uris, and
that the website knows (hasFile). The href list is read from the document
after remapping. -/
def getLinksToOtherPages (st : WebsiteMetadata) (libFolderName : String)
    (hrefs : List String) : List String :=
  (hrefs.filter (fun l =>
    !startsWithS l "#" && !startsWithS l (libFolderName ++ "/") &&
    !startsWithS l "https:" && !startsWithS l "http" && !startsWithS l "data:")).filter
    (fun l => hasFile st l)

/-- Webpage.getLinksToAttachments (webpage.ts lines 78-83): the same prefix
filter over src values, without the hasFile test. -/
def getLinksToAttachments (libFolderName : String) (srcs : List String) : List String :=
  srcs.filter (fun l =>
    !startsWithS l "#" && !startsWithS l (libFolderName ++ "/") &&
    !startsWithS l "https:" && !startsWithS l "http" && !startsWithS l "data:")

/-- Webpage.getBacklinks (webpage.ts lines 36-43): the backlink source
paths recorded by the host metadata cache, each mapped through
getTargetFilePath (which can extend the table, so the state is threaded);
the filter against undefined entries in the source is a no-op because
getTargetFilePath always returns a path. -/
def getBacklinks (opts : PipelineOptions) (host : HostAdapter) (st : WebsiteMetadata)
    (sourcePath : String) : List String × WebsiteMetadata :=
  (host.backlinkSources sourcePath).foldl
    (fun acc p =>
      let r := getTargetFilePath opts acc.2 p none false
      (acc.1 ++ [r.1], r.2))
    ([], st)

/-- The three path lists persisted into WebpageData by
fillMetadataAfterRender. -/
structure PageMetadataLists where
  links : List String
  backlinks : List String
  attachments : List String
  deriving DecidableEq

/-- Webpage.fillMetadataAfterRender (webpage.ts lines 216-225) restricted
to the three path lists (the rendered headings are outside this model):
links from the remapped href values, backlinks from the host cache, and
attachments from the remapped src values, each list stripped of the page's
own target path. -/
def fillMetadataAfterRender (opts : PipelineOptions) (host : HostAdapter)
    (st : WebsiteMetadata) (libFolderName selfPath sourcePath : String)
    (hrefs srcs : List String) : PageMetadataLists × WebsiteMetadata :=
  let links := (getLinksToOtherPages st libFolderName hrefs).filter (fun l => l != selfPath)
  let r := getBacklinks opts host st sourcePath
  let backlinks := r.1.filter (fun l => l != selfPath)
  let attachments := (getLinksToAttachments libFolderName srcs).filter (fun l => l != selfPath)
  ({ links := links, backlinks := backlinks, attachments := attachments }, r.2)

/-- A page as the build loop sees it: its source path, its target path
(templatePath.path) and the href and src attribute values of its rendered
content after remapping. -/
structure PageInput where
  sourcePath : String
  selfPath : String
  hrefs : List String
  srcs : List String

/-- The metadata-filling part of the build loop of Website.build (companion
Website implementation, lines 84-102): every webpage is built in order and
its metadata lists are produced, threading the website table. -/
def buildPages (opts : PipelineOptions) (host : HostAdapter) (libFolderName : String)
    (st : WebsiteMetadata) (pages : List PageInput) :
    List PageMetadataLists × WebsiteMetadata :=
  pages.foldl
    (fun acc P =>
      let r := fillMetadataAfterRender opts host acc.2 libFolderName
        P.selfPath P.sourcePath P.hrefs P.srcs
      (acc.1 ++ [r.1], r.2))
    ([], st)

/-- The metadata lists of one page computed against a fixed website table. -/
def fillMetadataPure (opts : PipelineOptions) (host : HostAdapter)
    (st : WebsiteMetadata) (libFolderName : String) (P : PageInput) : PageMetadataLists :=
  (fillMetadataAfterRender opts host st libFolderName P.selfPath P.sourcePath P.hrefs P.srcs).1

/-- The target paths of the backlink sources the host cache records for a
source path, each mapped through getTargetFilePath against a fixed table. -/
def backlinkTargets (opts : PipelineOptions) (host : HostAdapter) (st : WebsiteMetadata)
    (sourcePath : String) : List String :=
  (host.backlinkSources sourcePath).map (fun s => (getTargetFilePath opts st s none false).1)

/-- The post-self-filter links of one page against a fixed table. -/
def linksPure (st : WebsiteMetadata) (libFolderName : String) (P : PageInput) : List String :=
  (getLinksToOtherPages st libFolderName P.hrefs).filter (fun l => l != P.selfPath)

/-- The stop word list of the Index class (webpage.ts line 506), verbatim
including its duplicated entries. -/
def stopWords : List String :=
  ["a", "about", "actually", "almost", "also", "although", "always", "am",
   "an", "and", "any", "are", "as", "at", "be", "became", "become", "but",
   "by", "can", "could", "did", "do", "does", "each", "either", "else",
   "for", "from", "had", "has", "have", "hence", "how", "i", "if", "in",
   "is", "it", "its", "just", "may", "maybe", "me", "might", "mine", "must",
   "my", "mine", "must", "my", "neither", "nor", "not", "of", "oh", "ok",
   "when", "where", "whereas", "wherever", "whenever", "whether", "which",
   "while", "who", "whom", "whoever", "whose", "why", "will", "with",
   "within", "without", "would", "yes", "yet", "you", "your"]

/-- The processTerm option of Index.minisearchOptions (webpage.ts lines
512-513): a term equal to a stop word is dropped, every other term is
lowercased. The membership test runs on the term as written, before any
case folding. -/
def processTerm (t : String) : Option String :=
  if stopWords.contains t then none else some (toLowerS t)

/-- Index.addWebpageToMinisearch (webpage.ts lines 592-615) restricted to
the id component: when the index already has the page's template path the
old entry is discarded, then the page is added, so the index is modelled as
the list of document ids. -/
def addWebpageToMinisearch (idx : List String) (p : String) : List String :=
  (if idx.contains p then idx.erase p else idx) ++ [p]

/-- Modelled from the spec: Utils.levenshteinDistance of the missing
plugin/utils/utils module, the standard edit distance, written with a fuel
argument so it is structural (the fuel is always sufficient at the call
site). -/
def levAux : Nat → List Char → List Char → Nat
  | _, [], ys => ys.length
  | _, x :: xs, [] => (x :: xs).length
  | 0, _ :: _, _ :: _ => 0
  | fuel + 1, x :: xs, y :: ys =>
    if x == y then levAux fuel xs ys
    else 1 + min (levAux fuel (x :: xs) ys) (min (levAux fuel xs (y :: ys)) (levAux fuel xs ys))

/-- The edit distance between two strings. -/
def levenshteinDistance (s t : String) : Nat :=
  levAux (s.data.length + t.data.length) s.data t.data

/-- The inputs of the title decision of Webpage.addTitle (webpage.ts lines
281-330): the first non-embedded header element, the current title state
and the relevant document flags. -/
structure AddTitleInput where
  tagLevel : Nat
  dataHeading : Option String
  textContent : Option String
  innerHTML : String
  title : String
  basename : String
  isDefaultTitle : Bool
  showInlineTitle : Bool
  parentIsSizer : Bool
  childPosition : Nat

/-- The lowercased first header text of addTitle line 285: the data-heading
attribute, falling back to the text content, then to the empty string. -/
def firstHeaderTextOf (inp : AddTitleInput) : String :=
  match inp.dataHeading with
  | some s => toLowerS s
  | none =>
    match inp.textContent with
    | some s => toLowerS s
    | none => ""

/-- The ratio comparison distance divided by length is below num divided by
den, under JS arithmetic: false whenever the length is zero (the quotient
is then infinite or NaN). -/
def ratioLt (d len num den : Nat) : Bool := decide (d * den < len * num)

/-- True when the JS quotient of d by len is NaN (zero by zero). -/
def ratioIsNaN (d len : Nat) : Bool := d == 0 && len == 0

/-- The similarity test of addTitle line 291: the minimum of the title
ratio and the basename ratio is below 0.2 for an h1 and below 0.1 for an
h2; a NaN ratio poisons the minimum and the comparison yields false. -/
def titleSimilar (inp : AddTitleInput) : Bool :=
  let ft := firstHeaderTextOf inp
  let lowerTitle := toLowerS inp.title
  let dT := levenshteinDistance ft lowerTitle
  let dB := levenshteinDistance ft (toLowerS inp.basename)
  if ratioIsNaN dT lowerTitle.length || ratioIsNaN dB inp.basename.length then false
  else
    (inp.tagLevel == 1 &&
      (ratioLt dT lowerTitle.length 1 5 || ratioLt dB inp.basename.length 1 5)) ||
    (inp.tagLevel == 2 &&
      (ratioLt dT lowerTitle.length 1 10 || ratioLt dB inp.basename.length 1 10))

/-- The title decision of Webpage.addTitle: when the first header is
similar to the title it is removed, and its markup becomes the title if the
title was a default one; otherwise a top-of-page h1 (no inline title shown,
parent is the preview sizer, among the first three children) is treated the
same way; otherwise nothing changes. Returns the resulting title and
whether the header element was removed. -/
def addTitle (inp : AddTitleInput) : String × Bool :=
  if titleSimilar inp then
    (if inp.isDefaultTitle then inp.innerHTML else inp.title, true)
  else if inp.tagLevel == 1 && !inp.showInlineTitle && inp.parentIsSizer &&
      inp.childPosition ≤ 2 then
    (if inp.isDefaultTitle then inp.innerHTML else inp.title, true)
  else
    (inp.title, false)

/-- The attachment-creation phase of Website.build (companion Website
implementation, lines 84-114): the attachment source paths of all webpages
are concatenated in build order and every path the vault knows produces one
Attachment record (and later one download in saveAttachments); no
deduplication is applied. Each record is represented by its source path. -/
def collectAttachments (vaultHas : String → Bool) (pages : List (List String)) :
    List String :=
  pages.flatten.filter vaultHas

/-- Modelled from the spec: a Downloadable of the missing legacy utils
module, reduced to the fields the deduplication of
HTMLExportPlugin.exportFolder reads plus its payload. -/
structure ExternalFile where
  filename : String
  relativePath : String
  data : String
  deriving DecidableEq

/-- The key comparison of the findIndex predicate at part_000 line 230. -/
def fileKeyEq (f g : ExternalFile) : Bool :=
  f.relativePath == g.relativePath && f.filename == g.filename

/-- Recursion over the list with its running index, mirroring the JS
filter with index argument. -/
def dedupAux (l : List ExternalFile) : Nat → List ExternalFile → List ExternalFile
  | _, [] => []
  | i, f :: rest =>
    if l.findIdx? (fun g => fileKeyEq g f) == some i then f :: dedupAux l (i + 1) rest
    else dedupAux l (i + 1) rest

/-- The duplicate-removal filter of HTMLExportPlugin.exportFolder
(part_000 line 230): keep an entry exactly when its index is the first
index carrying its relativePath and filename. -/
def dedupExternalFiles (l : List ExternalFile) : List ExternalFile := dedupAux l 0 l

/-- An element carrying an id, as created in the head by
Website.getCombinedHTML; the value holds the encoded JSON payload. -/
structure DataElement where
  id : String
  value : String
  deriving DecidableEq

/-- An uppercase hexadecimal digit. -/
def hexDigit (n : Nat) : Char := if n < 10 then Char.ofNat (48 + n) else Char.ofNat (55 + n)

/-- A percent-encoded byte. -/
def byteHex (b : Nat) : String := String.mk ['%', hexDigit (b / 16), hexDigit (b % 16)]

/-- The utf-8 bytes of a character. -/
def utf8Bytes (c : Char) : List Nat :=
  let n := c.toNat
  if n < 128 then [n]
  else if n < 2048 then [192 + n / 64, 128 + n % 64]
  else if n < 65536 then [224 + n / 4096, 128 + n / 64 % 64, 128 + n % 64]
  else [240 + n / 262144, 128 + n / 4096 % 64, 128 + n / 64 % 64, 128 + n % 64]

/-- The characters the JS encodeURI function leaves unescaped besides
letters and digits. -/
def uriMarks : List Char :=
  ['-', '_', '.', '!', '~', '*', Char.ofNat 39, '(', ')', ';', '/', '?',
   ':', '@', '&', '=', '+', '$', ',', '#']

/-- True when encodeURI leaves the character as is. -/
def uriUnescaped (c : Char) : Bool := c.isAlphanum || uriMarks.contains c

/-- The JS encodeURI function: unescaped characters are kept, all others
are percent-encoded byte by byte. -/
def encodeURI (s : String) : String :=
  s.data.foldl
    (fun acc c =>
      acc ++ (if uriUnescaped c then String.mk [c] else String.join ((utf8Bytes c).map byteHex)))
    ""

/-- The number of elements of the document carrying a given id. -/
def countId (l : List DataElement) (i : String) : Nat :=
  (l.filter (fun e => e.id == i)).length

/-- The document after the unconditional part of Website.getCombinedHTML:
the authored id-bearing elements, the website-metadata element, then one
data element per webpage entry appended unconditionally. -/
def combinedBase (authored : List DataElement) (websiteDataValue : String)
    (webpages : List (String × String)) : List DataElement :=
  (authored ++ [⟨"website-metadata", websiteDataValue⟩]) ++
    webpages.map (fun pd => ⟨encodeURI pd.1, pd.2⟩)

/-- The embedding phase of Website.getCombinedHTML (website.ts lines
566-617) over the id-bearing elements of the document: after the
unconditional part, one data element per file-info entry is appended
unless the document already has an element with that id. -/
def getCombinedDataElements (authored : List DataElement) (websiteDataValue : String)
    (webpages fileInfo : List (String × String)) : List DataElement :=
  fileInfo.foldl
    (fun acc pd =>
      if acc.any (fun e => e.id == encodeURI pd.1) then acc
      else acc ++ [⟨encodeURI pd.1, pd.2⟩])
    (combinedBase authored websiteDataValue webpages)

/-- Modelled from the spec: the incremental-diff modification test (source
modification time newer than the recorded modification time), the test that
appears commented out at webpage.ts line 148. -/
def specIsModified (sourceMtime recordedMtime : Nat) : Bool :=
  decide (recordedMtime < sourceMtime)

/-- Webpage.build, line 174: the full rebuild is skipped exactly when the
page is not flagged modified. -/
def buildSkipsRebuild (isModified : Bool) : Bool := !isModified

/-! ### Concrete export configurations used by witnesses and counterexamples -/

/-- Options with slugification off, an empty export root and relative
header links off. -/
def optsPlain : PipelineOptions := ⟨false, "", false⟩

/-- Options with the export root a plain slash, as computed for files at
the vault root. -/
def optsRootSlash : PipelineOptions := ⟨false, "/", false⟩

/-- A host whose caches are empty. -/
def hostEmpty : HostAdapter := ⟨fun _ _ => none, fun _ => none, fun _ => []⟩

/-! ### Association list and registration lemmas -/

theorem alistGet_set_self {α : Type} (l : List (String × α)) (k : String) (v : α) :
    alistGet (alistSet l k v) k = some v := by
  induction l with
  | nil => simp [alistSet, alistGet]
  | cons p rest ih =>
    cases h : p.1 == k with
    | true => simp [alistSet, alistGet, h]
    | false => simp [alistSet, alistGet, h, ih]

theorem alistGet_set_ne {α : Type} (l : List (String × α)) (k k' : String) (v : α)
    (h : k' ≠ k) : alistGet (alistSet l k v) k' = alistGet l k' := by
  have hkk : (k == k') = false := by
    simp only [beq_eq_false_iff_ne]
    exact fun e => h e.symm
  induction l with
  | nil => simp [alistSet, alistGet, hkk]
  | cons p rest ih =>
    cases h1 : p.1 == k with
    | true =>
      have hp : p.1 = k := by simpa using h1
      have hp' : (p.1 == k') = false := by
        simp only [beq_eq_false_iff_ne, hp]
        exact fun e => h e.symm
      simp [alistSet, alistGet, h1, hkk, hp']
    | false => simp [alistSet, alistGet, h1, ih]

theorem getTargetFilePath_cached (opts : PipelineOptions) (st : WebsiteMetadata)
    (p : String) (fn : Option String) (t : String)
    (h : alistGet st.sourceToTarget p = some t) :
    getTargetFilePath opts st p fn false = (t, st) := by
  simp [getTargetFilePath, h]

theorem getTargetFilePath_uncached (opts : PipelineOptions) (st : WebsiteMetadata)
    (p : String) (fn : Option String) (hc : alistGet st.sourceToTarget p = none) :
    getTargetFilePath opts st p fn false =
      (deriveTargetOf opts p fn,
       ⟨alistSet st.sourceToTarget p (deriveTargetOf opts p fn),
        alistSet st.targetToSource (deriveTargetOf opts p fn) p,
        st.allFiles ++ [deriveTargetOf opts p fn]⟩) := by
  simp [getTargetFilePath, hc]

theorem getTargetFilePath_preserves (opts : PipelineOptions) (st : WebsiteMetadata)
    (p : String) (fn : Option String) (f : String) (v : String)
    (h : alistGet st.sourceToTarget f = some v) :
    alistGet (getTargetFilePath opts st p fn false).2.sourceToTarget f = some v := by
  cases hc : alistGet st.sourceToTarget p with
  | some t => rw [getTargetFilePath_cached opts st p fn t hc]; exact h
  | none =>
    by_cases hf : f = p
    · subst hf; rw [h] at hc; exact absurd hc (by simp)
    · rw [getTargetFilePath_uncached opts st p fn hc]
      simpa [alistGet_set_ne _ _ _ _ hf] using h

theorem getTargetFilePath_register (opts : PipelineOptions) (st : WebsiteMetadata)
    (f : String) (hc : alistGet st.sourceToTarget f = none) :
    alistGet (getTargetFilePath opts st f (some (htmlFilename f)) false).2.sourceToTarget f =
      some (deriveTarget opts f) := by
  rw [getTargetFilePath_uncached opts st f _ hc]
  exact alistGet_set_self _ _ _

theorem registerFiles_preserve (opts : PipelineOptions) (files : List String) :
    ∀ (st : WebsiteMetadata) (f v : String), alistGet st.sourceToTarget f = some v →
    alistGet (registerFiles opts st files).sourceToTarget f = some v := by
  induction files with
  | nil => intro st f v h; simpa [registerFiles] using h
  | cons g rest ih =>
    intro st f v h
    have step : registerFiles opts st (g :: rest) =
        registerFiles opts (getTargetFilePath opts st g (some (htmlFilename g)) false).2 rest := by
      simp [registerFiles]
    rw [step]
    exact ih _ f v (getTargetFilePath_preserves opts st g _ f v h)

theorem registerFiles_lookup (opts : PipelineOptions) (files : List String) :
    ∀ (st : WebsiteMetadata) (f : String), f ∈ files →
    (alistGet st.sourceToTarget f = none ∨
     alistGet st.sourceToTarget f = some (deriveTarget opts f)) →
    alistGet (registerFiles opts st files).sourceToTarget f = some (deriveTarget opts f) := by
  induction files with
  | nil => intro st f hmem; exact absurd hmem (by simp)
  | cons g rest ih =>
    intro st f hmem hst
    have step : registerFiles opts st (g :: rest) =
        registerFiles opts (getTargetFilePath opts st g (some (htmlFilename g)) false).2 rest := by
      simp [registerFiles]
    rw [step]
    by_cases hfg : f = g
    · subst hfg
      have hreg : alistGet (getTargetFilePath opts st f (some (htmlFilename f)) false).2.sourceToTarget f =
          some (deriveTarget opts f) := by
        rcases hst with hnone | hsome
        · exact getTargetFilePath_register opts st f hnone
        · rw [getTargetFilePath_cached opts st f _ _ hsome]
          exact hsome
      exact registerFiles_preserve opts rest _ f _ hreg
    · have hmem' : f ∈ rest := by
        rcases List.mem_cons.mp hmem with h | h
        · exact absurd h hfg
        · exact h
      have hst' : alistGet (getTargetFilePath opts st g (some (htmlFilename g)) false).2.sourceToTarget f =
          none ∨
          alistGet (getTargetFilePath opts st g (some (htmlFilename g)) false).2.sourceToTarget f =
          some (deriveTarget opts f) := by
        cases hc : alistGet st.sourceToTarget g with
        | some t =>
          rw [getTargetFilePath_cached opts st g _ t hc]
          exact hst
        | none =>
          rw [getTargetFilePath_uncached opts st g _ hc]
          simpa [alistGet_set_ne _ _ _ _ hfg] using hst
      exact ih _ f hmem' hst'

/-! ### Claim theorems -/

/-- C1: the spec requires that a candidate file whose source modification
time is not newer than the recorded one (and which is not forced) skips the
full rebuild. At such an input (source mtime 100, recorded mtime 200) the
code still rebuilds, because the modification test is commented out
(webpage.ts line 148) and replaced by an unconditional true marked temp
(line 149), while the specified test would skip. -/
theorem c1_unmodified_file_still_rebuilt :
    buildSkipsRebuild (initIsModified 100 200) = false ∧
    buildSkipsRebuild (specIsModified 100 200) = true := by
  decide

/-- C3 counterexample: with slugification disabled and the export root a
plain slash, the two distinct sources a.md and a.png both receive the
target a.html, so the source-to-target mapping of one export run is not
injective. -/
theorem c3_counterexample :
    ("a.md" : String) ≠ "a.png" ∧
    alistGet (registerFiles optsRootSlash emptyMetadata ["a.md", "a.png"]).sourceToTarget "a.md" =
      some "a.html" ∧
    alistGet (registerFiles optsRootSlash emptyMetadata ["a.md", "a.png"]).sourceToTarget "a.png" =
      some "a.html" := by
  decide

/-- C3 amended: the mapping registered for the included files is injective
only on files whose derived target names differ; two registered files with
distinct derived targets (the html-renamed, optionally slugified,
root-stripped source paths) receive distinct cached targets. -/
theorem c3_target_mapping_injective_amended (opts : PipelineOptions)
    (st : WebsiteMetadata) (files : List String) (f1 f2 : String)
    (h1 : f1 ∈ files) (h2 : f2 ∈ files)
    (hder : deriveTarget opts f1 ≠ deriveTarget opts f2)
    (hc1 : alistGet st.sourceToTarget f1 = none)
    (hc2 : alistGet st.sourceToTarget f2 = none) :
    alistGet (registerFiles opts st files).sourceToTarget f1 = some (deriveTarget opts f1) ∧
    alistGet (registerFiles opts st files).sourceToTarget f2 = some (deriveTarget opts f2) ∧
    alistGet (registerFiles opts st files).sourceToTarget f1 ≠
      alistGet (registerFiles opts st files).sourceToTarget f2 := by
  have k1 := registerFiles_lookup opts files st f1 h1 (Or.inl hc1)
  have k2 := registerFiles_lookup opts files st f2 h2 (Or.inl hc2)
  refine ⟨k1, k2, ?_⟩
  rw [k1, k2]
  simpa using hder

/-- C3 witness: two root files with distinct names get distinct targets. -/
theorem c3_witness :
    alistGet (registerFiles optsPlain emptyMetadata ["a.md", "b.md"]).sourceToTarget "a.md" =
      some (deriveTarget optsPlain "a.md") ∧
    alistGet (registerFiles optsPlain emptyMetadata ["a.md", "b.md"]).sourceToTarget "b.md" =
      some (deriveTarget optsPlain "b.md") ∧
    alistGet (registerFiles optsPlain emptyMetadata ["a.md", "b.md"]).sourceToTarget "a.md" ≠
      alistGet (registerFiles optsPlain emptyMetadata ["a.md", "b.md"]).sourceToTarget "b.md" :=
  c3_target_mapping_injective_amended optsPlain emptyMetadata ["a.md", "b.md"] "a.md" "b.md"
    (by decide) (by decide) (by decide) (by decide) (by decide)

/-- C10: after fillMetadataAfterRender, the page's own target path occurs
in none of its links, backlinks or attachments lists: all three are
filtered against the page's own path. -/
theorem c10_no_self_references (opts : PipelineOptions) (host : HostAdapter)
    (st : WebsiteMetadata) (libFolderName selfPath sourcePath : String)
    (hrefs srcs : List String) :
    selfPath ∉ (fillMetadataAfterRender opts host st libFolderName selfPath sourcePath
      hrefs srcs).1.links ∧
    selfPath ∉ (fillMetadataAfterRender opts host st libFolderName selfPath sourcePath
      hrefs srcs).1.backlinks ∧
    selfPath ∉ (fillMetadataAfterRender opts host st libFolderName selfPath sourcePath
      hrefs srcs).1.attachments := by
  refine ⟨?_, ?_, ?_⟩ <;>
    simp [fillMetadataAfterRender, List.mem_filter]

/-! ### Edit distance lemmas for the title decision -/

theorem levAux_nil_left (fuel : Nat) (ys : List Char) : levAux fuel [] ys = ys.length := by
  cases fuel <;> cases ys <;> simp [levAux]

theorem levAux_nil_right (fuel : Nat) (xs : List Char) : levAux fuel xs [] = xs.length := by
  cases fuel <;> cases xs <;> simp [levAux]

theorem string_eq_empty_of_data (s : String) (h : s.data = []) : s = "" := by
  cases s with
  | mk d =>
    subst h
    rfl

theorem contains_iff (l : List String) (a : String) : l.contains a = true ↔ a ∈ l := by
  simp [List.contains, List.elem_iff]

/-- C5: if the page title is the default (not set in front matter) and the
first header is within the edit-distance-ratio threshold of the title
(below one fifth for an h1, below one tenth for an h2, stated here without
division), then the title decision of addTitle promotes the header markup
to be the page title and removes the header element. -/
theorem c5_title_promotion (inp : AddTitleInput)
    (hdef : inp.isDefaultTitle = true)
    (hsim : (inp.tagLevel = 1 ∧
        5 * levenshteinDistance (firstHeaderTextOf inp) (toLowerS inp.title) <
          (toLowerS inp.title).length) ∨
      (inp.tagLevel = 2 ∧
        10 * levenshteinDistance (firstHeaderTextOf inp) (toLowerS inp.title) <
          (toLowerS inp.title).length)) :
    addTitle inp = (inp.innerHTML, true) := by
  have hlenT : 0 < (toLowerS inp.title).length := by
    rcases hsim with ⟨_, hlt⟩ | ⟨_, hlt⟩ <;> omega
  have hft : firstHeaderTextOf inp ≠ "" := by
    intro hcontra
    have hdT : levenshteinDistance (firstHeaderTextOf inp) (toLowerS inp.title) =
        (toLowerS inp.title).length := by
      rw [hcontra]
      show levAux _ [] _ = _
      rw [levAux_nil_left]
      rfl
    rcases hsim with ⟨_, hlt⟩ | ⟨_, hlt⟩ <;> (rw [hdT] at hlt; omega)
  have hnanT : ratioIsNaN
      (levenshteinDistance (firstHeaderTextOf inp) (toLowerS inp.title))
      (toLowerS inp.title).length = false := by
    simp only [ratioIsNaN, Bool.and_eq_false_iff]
    right
    simp only [beq_eq_false_iff_ne]
    omega
  have hnanB : ratioIsNaN
      (levenshteinDistance (firstHeaderTextOf inp) (toLowerS inp.basename))
      inp.basename.length = false := by
    simp only [ratioIsNaN, Bool.and_eq_false_iff]
    by_cases hb : inp.basename.length = 0
    · left
      have hbd : inp.basename.data = [] := by
        have : inp.basename.data.length = 0 := hb
        exact List.length_eq_zero.mp this
      have hlow : (toLowerS inp.basename).data = [] := by
        simp [toLowerS, hbd]
      have hdB : levenshteinDistance (firstHeaderTextOf inp) (toLowerS inp.basename) =
          (firstHeaderTextOf inp).data.length := by
        show levAux _ _ _ = _
        rw [hlow, levAux_nil_right]
      have hftlen : (firstHeaderTextOf inp).data.length ≠ 0 := by
        intro hzero
        exact hft (string_eq_empty_of_data _ (List.length_eq_zero.mp hzero))
      simp only [beq_eq_false_iff_ne]
      omega
    · right
      simp only [beq_eq_false_iff_ne]
      exact hb
  have hsimB : titleSimilar inp = true := by
    simp only [titleSimilar]
    rw [hnanT, hnanB]
    simp only [Bool.or_self, Bool.false_eq_true, if_false, Bool.or_eq_true,
      Bool.and_eq_true, beq_iff_eq]
    rcases hsim with ⟨htag, hlt⟩ | ⟨htag, hlt⟩
    · left
      refine ⟨htag, ?_⟩
      simp only [Bool.or_eq_true, ratioLt, decide_eq_true_eq]
      left
      omega
    · right
      refine ⟨htag, ?_⟩
      simp only [Bool.or_eq_true, ratioLt, decide_eq_true_eq]
      left
      omega
  simp [addTitle, hsimB, hdef]

/-- C5 witness: a heading Introduction in a file named introduction has
edit distance zero to the default title, so it becomes the page title and
the heading element is removed. -/
theorem c5_witness :
    addTitle ⟨1, some "Introduction", none, "Introduction", "introduction",
      "introduction", true, false, false, 0⟩ = ("Introduction", true) :=
  c5_title_promotion _ rfl (Or.inl ⟨rfl, by decide⟩)

/-- C7 counterexample: the stop word when written with a capital letter is
not removed by processTerm (the membership test runs before case folding),
so stop-word removal does not hold regardless of letter case. -/
theorem c7_counterexample :
    ¬ (∀ t : String, stopWords.contains (toLowerS t) = true → processTerm t = none) := by
  intro h
  have hw := h "When" (by decide)
  exact absurd hw (by decide)

/-- C7 amended: processTerm removes exactly the terms that literally equal
a stop word (no case folding before the test) and lowercases every kept
term; adding a page to the search index first discards any existing entry
with the page's template path, so an index holding at most one entry for
that path holds exactly one afterwards and other entries are untouched. -/
theorem c7_search_indexing_amended :
    (∀ t : String, processTerm t = none ↔ t ∈ stopWords) ∧
    (∀ t s : String, processTerm t = some s → s = toLowerS t) ∧
    (∀ (idx : List String) (p : String), idx.count p ≤ 1 →
      (addWebpageToMinisearch idx p).count p = 1 ∧
      ∀ q : String, q ≠ p → (addWebpageToMinisearch idx p).count q = idx.count q) := by
  refine ⟨?_, ?_, ?_⟩
  · intro t
    by_cases hm : t ∈ stopWords
    · have hc : stopWords.contains t = true := (contains_iff _ _).mpr hm
      simp [processTerm, hc, hm]
    · have hc : stopWords.contains t = false := by
        rw [Bool.eq_false_iff]
        intro hcontra
        exact hm ((contains_iff _ _).mp hcontra)
      simp [processTerm, hc, hm]
  · intro t s h
    by_cases hm : t ∈ stopWords
    · have hc : stopWords.contains t = true := (contains_iff _ _).mpr hm
      simp only [processTerm, hc, if_true] at h
      exact absurd h (by simp)
    · have hc : stopWords.contains t = false := by
        rw [Bool.eq_false_iff]
        intro hcontra
        exact hm ((contains_iff _ _).mp hcontra)
      simp only [processTerm, hc, Bool.false_eq_true, if_false, Option.some.injEq] at h
      exact h.symm
  · intro idx p hc
    constructor
    · by_cases hmem : p ∈ idx
      · have hcont : idx.contains p = true := (contains_iff _ _).mpr hmem
        have hpos : 0 < List.count p idx := List.count_pos_iff.mpr hmem
        simp only [addWebpageToMinisearch, hcont, if_true, List.count_append,
          List.count_erase_self, List.count_singleton_self]
        omega
      · have hcont : idx.contains p = false := by
          rw [Bool.eq_false_iff]
          intro hcontra
          exact hmem ((contains_iff _ _).mp hcontra)
        have hzero : List.count p idx = 0 := List.count_eq_zero.mpr hmem
        simp only [addWebpageToMinisearch, hcont, Bool.false_eq_true, if_false,
          List.count_append, List.count_singleton_self, hzero]
    · intro q hq
      have hsing : List.count q [p] = 0 := by
        rw [List.count_eq_zero]
        simp [hq]
      by_cases hmem : p ∈ idx
      · have hcont : idx.contains p = true := (contains_iff _ _).mpr hmem
        simp only [addWebpageToMinisearch, hcont, if_true, List.count_append, hsing,
          List.count_erase_of_ne hq, Nat.add_zero]
      · have hcont : idx.contains p = false := by
          rw [Bool.eq_false_iff]
          intro hcontra
          exact hmem ((contains_iff _ _).mp hcontra)
        simp only [addWebpageToMinisearch, hcont, Bool.false_eq_true, if_false,
          List.count_append, hsing, Nat.add_zero]

/-- C7 witness: re-adding an already indexed page keeps exactly one index
entry for its path. -/
theorem c7_witness :
    (addWebpageToMinisearch ["a.html", "b.html"] "a.html").count "a.html" = 1 :=
  (c7_search_indexing_amended.2.2 ["a.html", "b.html"] "a.html" (by decide)).1

/-- C8: a link that matches the external scheme pattern and is not an app
url, or is a data uri, or is a bare query string, gets no site-local target
from resolveLink, and remapping emits the original attribute value
unchanged while leaving the website table untouched. -/
theorem c8_external_links_pass_through (opts : PipelineOptions) (host : HostAdapter)
    (st : WebsiteMetadata) (templatePath sourcePath l : String)
    (h : (startsWithS l "app://" = false ∧ schemeMatch l = true) ∨
         startsWithS l "data:" = true ∨ startsWithS l "?" = true) :
    (resolveLink opts host st templatePath sourcePath (some l)).1 = none ∧
    (remapLinkElement opts host st templatePath sourcePath
      ⟨some l, false, false⟩).1.href = some l ∧
    (resolveLink opts host st templatePath sourcePath (some l)).2 = st := by
  have hne : (l == "") = false := by
    rw [beq_eq_false_iff_ne]
    intro hcontra
    subst hcontra
    rcases h with ⟨_, hs⟩ | hd | hq
    · exact absurd hs (by decide)
    · exact absurd hd (by decide)
    · exact absurd hq (by decide)
  have key : resolveLink opts host st templatePath sourcePath (some l) = (none, st) := by
    rcases h with ⟨happ, hsch⟩ | hd | hq
    · simp [resolveLink, hne, happ, hsch]
    · by_cases hc : (!startsWithS l "app://" && schemeMatch l) = true
      · simp [resolveLink, hne, hc]
      · simp [resolveLink, hne, hc, hd]
    · by_cases hc : (!startsWithS l "app://" && schemeMatch l) = true
      · simp [resolveLink, hne, hc]
      · by_cases hd : startsWithS l "data:" = true
        · simp [resolveLink, hne, hc, hd]
        · simp [resolveLink, hne, hc, hd, hq]
  refine ⟨?_, ?_, ?_⟩
  · rw [key]
  · simp [remapLinkElement, key]
  · rw [key]

/-- C8 witness: an https url is left untouched by resolution and
remapping. -/
theorem c8_witness :
    (resolveLink optsPlain hostEmpty emptyMetadata "t.html" "A.md"
      (some "https://example.com")).1 = none ∧
    (remapLinkElement optsPlain hostEmpty emptyMetadata "t.html" "A.md"
      ⟨some "https://example.com", false, false⟩).1.href = some "https://example.com" ∧
    (resolveLink optsPlain hostEmpty emptyMetadata "t.html" "A.md"
      (some "https://example.com")).2 = emptyMetadata :=
  c8_external_links_pass_through optsPlain hostEmpty emptyMetadata "t.html" "A.md"
    "https://example.com" (Or.inl ⟨by decide, by decide⟩)

/-! ### Lemmas for the path-bearing branch of resolveLink -/

theorem slugifyIf_empty (b : Bool) : slugifyIf b "" = "" := by
  cases b <;> rfl

theorem deriveTargetOf_empty (opts : PipelineOptions) :
    deriveTargetOf opts "" none = "" := by
  simp only [deriveTargetOf, slugifyIf_empty]
  split
  · exact String.drop_empty
  · rfl

theorem resolveLink_path_branch (opts : PipelineOptions) (host : HostAdapter)
    (st : WebsiteMetadata) (tp sp l : String)
    (hne : (l == "") = false) (hsch : schemeMatch l = false)
    (hd : startsWithS l "data:" = false) (hq : startsWithS l "?" = false)
    (hh : startsWithS l "#" = false) :
    resolveLink opts host st tp sp (some l) =
      (let linkSplit := (splitOnChar '?' ((splitOnChar '#' l).headD "")).headD ""
       let attachmentPath := pathnameOf (getFilePathFromSrc host linkSplit sp)
       let r := getTargetFilePath opts st attachmentPath none false
       let hash0 := ((splitOnChar '#' l).get? 1).getD ""
       let hash1 := if hash0 != "" then "#" ++ hash0 else hash0
       let hash2 := if extensionName r.1 == "html" then headingTextToID (some hash1) else hash1
       (some (r.1 ++ hash2), r.2)) := by
  simp only [resolveLink, hne, hsch, Bool.and_false, hd, hq, hh, Bool.false_eq_true, if_false]

/-- A host source resolved through the non-app branch of
getFilePathFromSrc for a hash-free link. -/
theorem getFilePathFromSrc_plain (host : HostAdapter) (l sp : String)
    (happ : startsWithS l "app://" = false) (h6 : splitOnChar '#' l = [l]) :
    getFilePathFromSrc host l sp = (host.getFirstLinkpathDest l sp).getD "" := by
  simp [getFilePathFromSrc, happ, h6]

/-- C4 counterexample: the link other.md points at a vault file whose path
notes/other.md is absent from the source-to-target table; remapping does
not leave the original href (it rewrites it to the freshly registered
target notes/other.md) and does not mark the element with the
is-unresolved class. -/
theorem c4_counterexample :
    alistGet (⟨[("A.md", "A.html")], [("A.html", "A.md")],
        ["A.html"]⟩ : WebsiteMetadata).sourceToTarget "notes/other.md" = none ∧
    (remapLinkElement optsPlain
      ⟨fun p _ => if p == "other.md" then some "notes/other.md" else none,
       fun _ => none, fun _ => []⟩
      ⟨[("A.md", "A.html")], [("A.html", "A.md")], ["A.html"]⟩
      "A.html" "A.md" ⟨some "other.md", false, false⟩).1 =
      ⟨some "notes/other.md", true, false⟩ := by
  decide

/-- C4 amended: for a hash-free, query-free, path-bearing link, the guard
against a missing target in resolveLink is dead (getTargetFilePath always
returns a path). When the host vault cannot resolve the path the href is
rewritten to the target derived from the empty path (the empty string, not
the original href) and the element is marked is-unresolved; when the vault
resolves it to an already-registered source the href is rewritten to that
target and the element is not marked; resolution is total, so the run does
not abort. -/
theorem c4_unresolved_links_amended :
    (∀ (opts : PipelineOptions) (host : HostAdapter) (st : WebsiteMetadata)
       (tp sp l : String),
      (l == "") = false → startsWithS l "app://" = false → schemeMatch l = false →
      startsWithS l "data:" = false → startsWithS l "?" = false →
      startsWithS l "#" = false → splitOnChar '#' l = [l] → splitOnChar '?' l = [l] →
      host.getFirstLinkpathDest l sp = none →
      alistGet st.sourceToTarget "" = none →
      (remapLinkElement opts host st tp sp ⟨some l, false, false⟩).1 =
        ⟨some "", true, true⟩) ∧
    (∀ (opts : PipelineOptions) (host : HostAdapter) (st : WebsiteMetadata)
       (tp sp l p t : String),
      (l == "") = false → startsWithS l "app://" = false → schemeMatch l = false →
      startsWithS l "data:" = false → startsWithS l "?" = false →
      startsWithS l "#" = false → splitOnChar '#' l = [l] → splitOnChar '?' l = [l] →
      host.getFirstLinkpathDest l sp = some p →
      splitOnChar '#' p = [p] →
      alistGet st.sourceToTarget p = some t →
      (t == "") = false →
      (remapLinkElement opts host st tp sp ⟨some l, false, false⟩).1 =
        ⟨some t, true, false⟩ ∧
      (resolveLink opts host st tp sp (some l)).2 = st) := by
  constructor
  · intro opts host st tp sp l hne happ hsch hd hq hh h6 h7 hres hempty
    have hsrc : getFilePathFromSrc host l sp = "" := by
      rw [getFilePathFromSrc_plain host l sp happ h6, hres]
      rfl
    have hkey : resolveLink opts host st tp sp (some l) =
        ((some ""), (getTargetFilePath opts st "" none false).2) := by
      rw [resolveLink_path_branch opts host st tp sp l hne hsch hd hq hh]
      simp only [h6, h7, List.headD_cons, hsrc]
      have hpn : pathnameOf "" = "" := rfl
      rw [hpn]
      have hfirst : (getTargetFilePath opts st "" none false).1 = "" := by
        rw [getTargetFilePath_uncached opts st "" none hempty]
        exact deriveTargetOf_empty opts
      simp only [List.get?_cons_succ, List.get?_nil, Option.getD_none, hfirst]
      rfl
    simp [remapLinkElement, hkey]
  · intro opts host st tp sp l p t hne happ hsch hd hq hh h6 h7 hres hp hcache ht
    have hsrc : getFilePathFromSrc host l sp = p := by
      rw [getFilePathFromSrc_plain host l sp happ h6, hres]
      rfl
    have hpn : pathnameOf p = p := by
      simp [pathnameOf, hp]
    have hkey : resolveLink opts host st tp sp (some l) = ((some t), st) := by
      rw [resolveLink_path_branch opts host st tp sp l hne hsch hd hq hh]
      simp only [h6, h7, List.headD_cons, hsrc, hpn]
      rw [getTargetFilePath_cached opts st p none t hcache]
      simp only [List.get?_cons_succ, List.get?_nil, Option.getD_none]
      have hh1 : (if ("" : String) != "" then "#" ++ "" else "") = "" := by decide
      rw [hh1]
      have hh2 : (if (extensionName t == "html") = true then headingTextToID (some "") else "") =
          "" := by
        split <;> rfl
      rw [hh2]
      have happend : t ++ "" = t := by simp
      rw [happend]
    refine ⟨?_, ?_⟩
    · simp [remapLinkElement, hkey, ht]
    · rw [hkey]

/-- C4 witness: a vault-unresolvable link gets the empty href and the
is-unresolved class; a vault-resolvable link to a registered source is
remapped to its cached target without the class, leaving the table
unchanged. -/
theorem c4_witness :
    (remapLinkElement optsPlain hostEmpty
      ⟨[("A.md", "A.html")], [("A.html", "A.md")], ["A.html"]⟩
      "A.html" "A.md" ⟨some "missing.md", false, false⟩).1 = ⟨some "", true, true⟩ ∧
    ((remapLinkElement optsPlain
      ⟨fun p _ => if p == "other.md" then some "notes/other.md" else none,
       fun _ => none, fun _ => []⟩
      ⟨[("A.md", "A.html"), ("notes/other.md", "notes/other.html")],
       [("A.html", "A.md"), ("notes/other.html", "notes/other.md")],
       ["A.html", "notes/other.html"]⟩
      "A.html" "A.md" ⟨some "other.md", false, false⟩).1 =
        ⟨some "notes/other.html", true, false⟩ ∧
     (resolveLink optsPlain
      ⟨fun p _ => if p == "other.md" then some "notes/other.md" else none,
       fun _ => none, fun _ => []⟩
      ⟨[("A.md", "A.html"), ("notes/other.md", "notes/other.html")],
       [("A.html", "A.md"), ("notes/other.html", "notes/other.md")],
       ["A.html", "notes/other.html"]⟩
      "A.html" "A.md" (some "other.md")).2 =
        ⟨[("A.md", "A.html"), ("notes/other.md", "notes/other.html")],
         [("A.html", "A.md"), ("notes/other.html", "notes/other.md")],
         ["A.html", "notes/other.html"]⟩) :=
  ⟨c4_unresolved_links_amended.1 optsPlain hostEmpty
      ⟨[("A.md", "A.html")], [("A.html", "A.md")], ["A.html"]⟩
      "A.html" "A.md" "missing.md" (by decide) (by decide) (by decide) (by decide)
      (by decide) (by decide) (by decide) (by decide) rfl (by decide),
   c4_unresolved_links_amended.2 optsPlain
      ⟨fun p _ => if p == "other.md" then some "notes/other.md" else none,
       fun _ => none, fun _ => []⟩
      ⟨[("A.md", "A.html"), ("notes/other.md", "notes/other.html")],
       [("A.html", "A.md"), ("notes/other.html", "notes/other.md")],
       ["A.html", "notes/other.html"]⟩
      "A.html" "A.md" "other.md" "notes/other.md" "notes/other.html"
      (by decide) (by decide) (by decide) (by decide) (by decide) (by decide)
      (by decide) (by decide) (by decide) (by decide) (by decide) (by decide)⟩

/-! ### Lemmas about findIdx? and the legacy download deduplication -/

theorem findIdx?_go_spec (p : ExternalFile → Bool) :
    ∀ (l : List ExternalFile) (i j : Nat), List.findIdx? p l i = some j →
      i ≤ j ∧ ∃ g, l.get? (j - i) = some g ∧ p g = true := by
  intro l
  induction l with
  | nil => intro i j h; simp at h
  | cons x rest ih =>
    intro i j h
    rw [List.findIdx?_cons] at h
    by_cases hp : p x = true
    · rw [if_pos hp] at h
      obtain rfl : i = j := by simpa using h
      exact ⟨Nat.le_refl i, x, by simp, hp⟩
    · rw [if_neg hp] at h
      obtain ⟨hle, g, hget, hg⟩ := ih (i + 1) j h
      refine ⟨by omega, g, ?_, hg⟩
      have : j - i = (j - (i + 1)) + 1 := by omega
      rw [this]
      simpa using hget

theorem findIdx?_exists (p : ExternalFile → Bool) :
    ∀ (l : List ExternalFile) (g : ExternalFile), g ∈ l → p g = true →
      ∀ i, ∃ j, List.findIdx? p l i = some j := by
  intro l
  induction l with
  | nil => intro g hg; simp at hg
  | cons x rest ih =>
    intro g hg hp i
    rw [List.mem_cons] at hg
    by_cases hx : p x = true
    · exact ⟨i, by rw [List.findIdx?_cons, if_pos hx]⟩
    · rcases hg with rfl | hg
      · exact absurd hp hx
      · obtain ⟨j, hj⟩ := ih g hg hp (i + 1)
        exact ⟨j, by rw [List.findIdx?_cons, if_neg hx]; exact hj⟩

theorem dedupAux_findIdx_ge (l : List ExternalFile) :
    ∀ (rest : List ExternalFile) (i : Nat) (g : ExternalFile), g ∈ dedupAux l i rest →
      ∃ j, List.findIdx? (fun x => fileKeyEq x g) l = some j ∧ i ≤ j := by
  intro rest
  induction rest with
  | nil => intro i g hg; simp [dedupAux] at hg
  | cons f rest ih =>
    intro i g hg
    unfold dedupAux at hg
    by_cases hcnd : (List.findIdx? (fun x => fileKeyEq x f) l == some i) = true
    · rw [if_pos hcnd] at hg
      rcases List.mem_cons.mp hg with rfl | hg'
      · exact ⟨i, by simpa using hcnd, Nat.le_refl i⟩
      · obtain ⟨j, hj, hge⟩ := ih (i + 1) g hg'
        exact ⟨j, hj, by omega⟩
    · rw [if_neg hcnd] at hg
      obtain ⟨j, hj, hge⟩ := ih (i + 1) g hg
      exact ⟨j, hj, by omega⟩

theorem fileKeyEq_congr (f b : ExternalFile)
    (hr : f.relativePath = b.relativePath) (hn : f.filename = b.filename) :
    (fun x => fileKeyEq x f) = (fun x => fileKeyEq x b) := by
  funext x
  simp [fileKeyEq, hr, hn]

theorem dedupAux_pairwise (l : List ExternalFile) :
    ∀ (rest : List ExternalFile) (i : Nat),
      (dedupAux l i rest).Pairwise
        (fun a b => ¬(a.relativePath = b.relativePath ∧ a.filename = b.filename)) := by
  intro rest
  induction rest with
  | nil => intro i; simp [dedupAux]
  | cons f rest ih =>
    intro i
    unfold dedupAux
    by_cases hcnd : (List.findIdx? (fun x => fileKeyEq x f) l == some i) = true
    · rw [if_pos hcnd]
      refine List.Pairwise.cons ?_ (ih (i + 1))
      intro b hb ⟨hr, hn⟩
      obtain ⟨j, hj, hge⟩ := dedupAux_findIdx_ge l rest (i + 1) b hb
      rw [← fileKeyEq_congr f b hr hn] at hj
      have hi : List.findIdx? (fun x => fileKeyEq x f) l = some i := by simpa using hcnd
      rw [hi] at hj
      have : i = j := by simpa using hj
      omega
    · rw [if_neg hcnd]
      exact ih (i + 1)

theorem dedupAux_mem (l : List ExternalFile) :
    ∀ (rest : List ExternalFile) (i j : Nat) (g : ExternalFile),
      rest.get? j = some g →
      List.findIdx? (fun x => fileKeyEq x g) l = some (i + j) →
      g ∈ dedupAux l i rest := by
  intro rest
  induction rest with
  | nil => intro i j g hget; simp at hget
  | cons f rest ih =>
    intro i j g hget hidx
    cases j with
    | zero =>
      obtain rfl : f = g := by simpa using hget
      have hcnd : (List.findIdx? (fun x => fileKeyEq x f) l == some i) = true := by
        rw [hidx]
        simp
      unfold dedupAux
      rw [if_pos hcnd]
      exact List.mem_cons_self _ _
    | succ j' =>
      have hget' : rest.get? j' = some g := by simpa using hget
      have hidx' : List.findIdx? (fun x => fileKeyEq x g) l = some ((i + 1) + j') := by
        rw [hidx]
        congr 1
        omega
      have hmem := ih (i + 1) j' g hget' hidx'
      unfold dedupAux
      by_cases hcnd : (List.findIdx? (fun x => fileKeyEq x f) l == some i) = true
      · rw [if_pos hcnd]
        exact List.mem_cons_of_mem _ hmem
      · rw [if_neg hcnd]
        exact hmem

/-- C6 counterexample: two pages referencing the identical attachment
source path img.png produce two Attachment records (and two downloads) in
the current pipeline, not exactly one. -/
theorem c6_counterexample :
    collectAttachments (fun _ => true) [["img.png"], ["img.png"]] =
      ["img.png", "img.png"] ∧
    (collectAttachments (fun _ => true) [["img.png"], ["img.png"]]).length = 2 := by
  decide

/-- C6 amended: the current pipeline creates one Attachment record per
vault-resolvable reference (so duplicated references yield duplicated
records and downloads, all aimed at the same target); only the legacy
exportFolder path deduplicates its download list, which afterwards holds
no two entries with the same relativePath and filename while still
covering every referenced key. -/
theorem c6_attachment_dedup_amended :
    (∀ (vaultHas : String → Bool) (pages : List (List String)) (p : String),
      vaultHas p = true →
      List.count p (collectAttachments vaultHas pages) = List.count p pages.flatten) ∧
    (∀ l : List ExternalFile,
      (dedupExternalFiles l).Pairwise
        (fun a b => ¬(a.relativePath = b.relativePath ∧ a.filename = b.filename)) ∧
      ∀ f ∈ l, ∃ g ∈ dedupExternalFiles l,
        g.relativePath = f.relativePath ∧ g.filename = f.filename) := by
  constructor
  · intro vaultHas pages p h
    unfold collectAttachments
    exact List.count_filter h
  · intro l
    constructor
    · exact dedupAux_pairwise l l 0
    · intro f hf
      have hself : fileKeyEq f f = true := by simp [fileKeyEq]
      obtain ⟨j, hj⟩ := findIdx?_exists (fun x => fileKeyEq x f) l f hf hself 0
      obtain ⟨-, g, hget, hpg⟩ := findIdx?_go_spec (fun x => fileKeyEq x f) l 0 j hj
      have hget' : l.get? j = some g := by simpa using hget
      have hr : g.relativePath = f.relativePath := by
        have := hpg
        simp only [fileKeyEq, Bool.and_eq_true, beq_iff_eq] at this
        exact this.1
      have hn : g.filename = f.filename := by
        have := hpg
        simp only [fileKeyEq, Bool.and_eq_true, beq_iff_eq] at this
        exact this.2
      have hidx : List.findIdx? (fun x => fileKeyEq x g) l = some (0 + j) := by
        rw [fileKeyEq_congr g f hr hn]
        simpa using hj
      exact ⟨g, dedupAux_mem l l 0 j g hget' hidx, hr, hn⟩

/-- C6 witness: a single vault-known reference is counted once, and the
legacy deduplication keeps an entry for a duplicated key. -/
theorem c6_witness :
    List.count "img.png" (collectAttachments (fun _ => true) [["img.png"], ["doc.md"]]) =
      List.count "img.png" [["img.png"], ["doc.md"]].flatten ∧
    ∃ g ∈ dedupExternalFiles [⟨"img.png", "res", "d1"⟩, ⟨"img.png", "res", "d2"⟩],
      g.relativePath = "res" ∧ g.filename = "img.png" :=
  ⟨c6_attachment_dedup_amended.1 (fun _ => true) [["img.png"], ["doc.md"]] "img.png" rfl,
   (c6_attachment_dedup_amended.2 [⟨"img.png", "res", "d1"⟩, ⟨"img.png", "res", "d2"⟩]).2
     ⟨"img.png", "res", "d2"⟩ (by simp)⟩

/-! ### Lemmas for the combined document embedding -/

theorem combined_fold_extends (fileInfo : List (String × String)) :
    ∀ acc : List DataElement,
      ∃ ext, fileInfo.foldl
        (fun acc pd =>
          if acc.any (fun e => e.id == encodeURI pd.1) then acc
          else acc ++ [⟨encodeURI pd.1, pd.2⟩]) acc = acc ++ ext := by
  induction fileInfo with
  | nil => intro acc; exact ⟨[], by simp⟩
  | cons pd fi ih =>
    intro acc
    rw [List.foldl_cons]
    by_cases hc : (acc.any (fun e => e.id == encodeURI pd.1)) = true
    · rw [if_pos hc]
      exact ih acc
    · rw [if_neg hc]
      obtain ⟨ext, hext⟩ := ih (acc ++ [(⟨encodeURI pd.1, pd.2⟩ : DataElement)])
      exact ⟨[(⟨encodeURI pd.1, pd.2⟩ : DataElement)] ++ ext,
        by rw [hext, List.append_assoc]⟩

theorem combined_fold_count_stable (fileInfo : List (String × String)) :
    ∀ (acc : List DataElement) (i : String),
      acc.any (fun e => e.id == i) = true →
      countId (fileInfo.foldl
        (fun acc pd =>
          if acc.any (fun e => e.id == encodeURI pd.1) then acc
          else acc ++ [⟨encodeURI pd.1, pd.2⟩]) acc) i = countId acc i := by
  induction fileInfo with
  | nil => intro acc i _; rfl
  | cons pd fi ih =>
    intro acc i hacc
    rw [List.foldl_cons]
    by_cases hc : (acc.any (fun e => e.id == encodeURI pd.1)) = true
    · rw [if_pos hc]
      exact ih acc i hacc
    · rw [if_neg hc]
      have hne : (i == encodeURI pd.1) = false := by
        rw [beq_eq_false_iff_ne]
        intro hcontra
        rw [hcontra] at hacc
        exact hc hacc
      have hacc' : (acc ++ [(⟨encodeURI pd.1, pd.2⟩ : DataElement)]).any
          (fun e => e.id == i) = true := by
        rw [List.any_append, hacc]
        rfl
      rw [ih _ i hacc']
      unfold countId
      rw [List.filter_append]
      have : List.filter (fun e => e.id == i)
          [(⟨encodeURI pd.1, pd.2⟩ : DataElement)] = [] := by
        simp only [List.filter]
        have : ((⟨encodeURI pd.1, pd.2⟩ : DataElement).id == i) = false := by
          rw [beq_eq_false_iff_ne]
          intro hcontra
          rw [← hcontra] at hne
          simp at hne
        rw [this]
      rw [this, List.append_nil]

/-- C9 counterexample: a document whose authored elements already contain
an element with the id of a webpage entry receives that entry again (the
webpage loop appends unconditionally), so an entry already present in the
authored document is embedded a second time. -/
theorem c9_counterexample :
    countId [⟨"a", "x"⟩] "a" = 1 ∧
    countId (getCombinedDataElements [⟨"a", "x"⟩] "w" [("a", "y")] []) "a" = 2 := by
  decide

/-- C9 amended: the combined document contains one distinct data element
per webpage entry, with id the encoded target path key, appended
unconditionally (so a same-id element already in the authored document is
duplicated rather than skipped); only the file-info loop checks the
document and never adds an element whose id is already present. -/
theorem c9_combined_embedding_amended :
    (∀ (authored : List DataElement) (w : String) (webpages fileInfo : List (String × String)),
      List.Sublist (webpages.map (fun pd => DataElement.mk (encodeURI pd.1) pd.2))
        (getCombinedDataElements authored w webpages fileInfo)) ∧
    (∀ (authored : List DataElement) (w : String) (webpages fileInfo : List (String × String))
       (i : String),
      (combinedBase authored w webpages).any (fun e => e.id == i) = true →
      countId (getCombinedDataElements authored w webpages fileInfo) i =
        countId (combinedBase authored w webpages) i) := by
  constructor
  · intro authored w webpages fileInfo
    obtain ⟨ext, hext⟩ := combined_fold_extends fileInfo (combinedBase authored w webpages)
    unfold getCombinedDataElements
    rw [hext]
    unfold combinedBase
    rw [List.append_assoc]
    exact List.Sublist.trans (List.sublist_append_left _ ext)
      (List.sublist_append_right _ _)
  · intro authored w webpages fileInfo i h
    exact combined_fold_count_stable fileInfo _ i h

/-- C9 witness: a two-page export embeds both page entries as data
elements, and a file-info entry whose id is already present adds
nothing. -/
theorem c9_witness :
    List.Sublist
      ([("p1.html", "d1"), ("p2.html", "d2")].map
        (fun pd => DataElement.mk (encodeURI pd.1) pd.2))
      (getCombinedDataElements [] "w" [("p1.html", "d1"), ("p2.html", "d2")] []) ∧
    countId (getCombinedDataElements [⟨"a", "x"⟩] "w" [] [("a", "y")]) "a" =
      countId (combinedBase [⟨"a", "x"⟩] "w" []) "a" :=
  ⟨c9_combined_embedding_amended.1 [] "w" [("p1.html", "d1"), ("p2.html", "d2")] [],
   c9_combined_embedding_amended.2 [⟨"a", "x"⟩] "w" [] [("a", "y")] "a" (by decide)⟩

/-! ### Lemmas for the backlink consistency analysis -/

theorem getBacklinks_fold_registered (opts : PipelineOptions) (st : WebsiteMetadata) :
    ∀ (ps : List String) (acc : List String),
      (∀ s ∈ ps, (alistGet st.sourceToTarget s).isSome = true) →
      ps.foldl
        (fun acc p =>
          let r := getTargetFilePath opts acc.2 p none false
          (acc.1 ++ [r.1], r.2)) (acc, st) =
        (acc ++ ps.map (fun s => (getTargetFilePath opts st s none false).1), st) := by
  intro ps
  induction ps with
  | nil => intro acc _; simp
  | cons p ps ih =>
    intro acc hall
    rw [List.foldl_cons]
    have hp := hall p (List.mem_cons_self p ps)
    obtain ⟨t, ht⟩ := Option.isSome_iff_exists.mp hp
    have hgt : getTargetFilePath opts st p none false = (t, st) :=
      getTargetFilePath_cached opts st p none t ht
    have hstep : (let r := getTargetFilePath opts (acc, st).2 p none false
        ((acc, st).1 ++ [r.1], r.2)) = ((acc ++ [t], st) : List String × WebsiteMetadata) := by
      simp [hgt]
    rw [hstep, ih (acc ++ [t]) (fun s hs => hall s (List.mem_cons_of_mem p hs))]
    rw [List.map_cons, hgt]
    simp

theorem getBacklinks_registered (opts : PipelineOptions) (host : HostAdapter)
    (st : WebsiteMetadata) (src : String)
    (h : ∀ s ∈ host.backlinkSources src, (alistGet st.sourceToTarget s).isSome = true) :
    getBacklinks opts host st src = (backlinkTargets opts host st src, st) := by
  unfold getBacklinks backlinkTargets
  rw [getBacklinks_fold_registered opts st (host.backlinkSources src) [] h]
  simp

theorem fillMetadata_registered (opts : PipelineOptions) (host : HostAdapter)
    (st : WebsiteMetadata) (lib selfPath sourcePath : String)
    (hrefs srcs : List String)
    (h : ∀ s ∈ host.backlinkSources sourcePath, (alistGet st.sourceToTarget s).isSome = true) :
    fillMetadataAfterRender opts host st lib selfPath sourcePath hrefs srcs =
      (⟨(getLinksToOtherPages st lib hrefs).filter (fun l => l != selfPath),
        (backlinkTargets opts host st sourcePath).filter (fun l => l != selfPath),
        (getLinksToAttachments lib srcs).filter (fun l => l != selfPath)⟩, st) := by
  unfold fillMetadataAfterRender
  rw [getBacklinks_registered opts host st sourcePath h]

theorem buildPages_fold_registered (opts : PipelineOptions) (host : HostAdapter)
    (lib : String) (st : WebsiteMetadata) :
    ∀ (pages : List PageInput) (acc : List PageMetadataLists),
      (∀ P ∈ pages, ∀ s ∈ host.backlinkSources P.sourcePath,
        (alistGet st.sourceToTarget s).isSome = true) →
      pages.foldl
        (fun acc P =>
          let r := fillMetadataAfterRender opts host acc.2 lib
            P.selfPath P.sourcePath P.hrefs P.srcs
          (acc.1 ++ [r.1], r.2)) (acc, st) =
        (acc ++ pages.map (fillMetadataPure opts host st lib), st) := by
  intro pages
  induction pages with
  | nil => intro acc _; simp
  | cons P pages ih =>
    intro acc hall
    rw [List.foldl_cons]
    have hP := hall P (List.mem_cons_self P pages)
    have hfill := fillMetadata_registered opts host st lib P.selfPath P.sourcePath
      P.hrefs P.srcs hP
    have hstep : (let r := fillMetadataAfterRender opts host ((acc, st) :
          List PageMetadataLists × WebsiteMetadata).2 lib P.selfPath P.sourcePath P.hrefs P.srcs
        ((acc, st).1 ++ [r.1], r.2)) =
        ((acc ++ [fillMetadataPure opts host st lib P], st) :
          List PageMetadataLists × WebsiteMetadata) := by
      simp only [fillMetadataPure, hfill]
    rw [hstep, ih (acc ++ [fillMetadataPure opts host st lib P])
      (fun Q hQ => hall Q (List.mem_cons_of_mem P hQ))]
    simp

/-- C2 counterexample: page A links to page B (its remapped href B.html is
known to the site), but the host backlink cache records nothing for B, so
after metadata filling B.html is in the links of A while A.html is not in
the backlinks of B: the biconditional of the claim fails because backlinks
are read from the host cache, not recomputed from the pages' links. -/
theorem c2_counterexample :
    "B.html" ∈ (fillMetadataAfterRender optsPlain hostEmpty
      ⟨[("A.md", "A.html"), ("B.md", "B.html")],
       [("A.html", "A.md"), ("B.html", "B.md")], ["A.html", "B.html"]⟩
      "lib" "A.html" "A.md" ["B.html"] []).1.links ∧
    "A.html" ∉ (fillMetadataAfterRender optsPlain hostEmpty
      ⟨[("A.md", "A.html"), ("B.md", "B.html")],
       [("A.html", "A.md"), ("B.html", "B.md")], ["A.html", "B.html"]⟩
      "lib" "B.html" "B.md" [] []).1.backlinks := by
  decide

/-- C2 amended: a page's persisted backlinks are the host cache's recorded
linkers mapped to target paths with the page's own path removed, not a
recomputation from the exported pages' links; the claimed biconditional
holds exactly when the host cache agrees with the rendered link graph:
under that consistency hypothesis (and distinct target paths, all cache
sources registered), for every two built pages A and B, the target of B is
in the links of A if and only if the target of A is in the backlinks of
B. -/
theorem c2_backlink_consistency_amended (opts : PipelineOptions) (host : HostAdapter)
    (lib : String) (st : WebsiteMetadata) (pages : List PageInput)
    (hreg : ∀ P ∈ pages, ∀ s ∈ host.backlinkSources P.sourcePath,
      (alistGet st.sourceToTarget s).isSome = true)
    (hnodup : (pages.map PageInput.selfPath).Nodup)
    (hcons : ∀ B ∈ pages, backlinkTargets opts host st B.sourcePath =
      (pages.filter (fun A => (linksPure st lib A).contains B.selfPath)).map
        PageInput.selfPath) :
    (buildPages opts host lib st pages).1 =
      pages.map (fillMetadataPure opts host st lib) ∧
    ∀ A ∈ pages, ∀ B ∈ pages,
      (B.selfPath ∈ (fillMetadataPure opts host st lib A).links ↔
       A.selfPath ∈ (fillMetadataPure opts host st lib B).backlinks) := by
  constructor
  · unfold buildPages
    rw [buildPages_fold_registered opts host lib st pages [] hreg]
    simp
  · intro A hA B hB
    have hfillA : (fillMetadataPure opts host st lib A).links = linksPure st lib A := rfl
    have hfillB : (fillMetadataPure opts host st lib B).backlinks =
        (backlinkTargets opts host st B.sourcePath).filter (fun l => l != B.selfPath) := by
      unfold fillMetadataPure
      rw [fillMetadata_registered opts host st lib B.selfPath B.sourcePath B.hrefs B.srcs
        (hreg B hB)]
    constructor
    · intro hmem
      rw [hfillA] at hmem
      have hne : A.selfPath ≠ B.selfPath := by
        intro he
        unfold linksPure at hmem
        rw [List.mem_filter] at hmem
        have := hmem.2
        rw [bne_iff_ne] at this
        exact this he.symm
      rw [hfillB, List.mem_filter]
      constructor
      · rw [hcons B hB, List.mem_map]
        refine ⟨A, ?_, rfl⟩
        rw [List.mem_filter]
        exact ⟨hA, (contains_iff _ _).mpr hmem⟩
      · rw [bne_iff_ne]
        exact hne
    · intro hmem
      rw [hfillB, List.mem_filter] at hmem
      obtain ⟨hmem1, -⟩ := hmem
      rw [hcons B hB, List.mem_map] at hmem1
      obtain ⟨A', hA', heq⟩ := hmem1
      rw [List.mem_filter] at hA'
      obtain ⟨hA'p, hA'c⟩ := hA'
      have hAA : A' = A := List.inj_on_of_nodup_map hnodup hA'p hA heq
      rw [hfillA, ← hAA]
      exact (contains_iff _ _).mp hA'c

/-- The registered table of the two-page witness export. -/
def stTwoPages : WebsiteMetadata :=
  ⟨[("A.md", "A.html"), ("B.md", "B.html")],
   [("A.html", "A.md"), ("B.html", "B.md")], ["A.html", "B.html"]⟩

/-- A host whose backlink cache agrees with the rendered links of the
two-page witness export. -/
def hostConsistent : HostAdapter :=
  ⟨fun _ _ => none, fun _ => none, fun s => if s == "B.md" then ["A.md"] else []⟩

/-- Page A of the witness export: its rendered content links to B. -/
def pageA : PageInput := ⟨"A.md", "A.html", ["B.html"], []⟩

/-- Page B of the witness export: no outgoing links. -/
def pageB : PageInput := ⟨"B.md", "B.html", [], []⟩

/-- C2 witness: on a two-page export whose host cache agrees with the
rendered links, the backlink biconditional holds for the pair. -/
theorem c2_witness :
    ("B.html" ∈ (fillMetadataPure optsPlain hostConsistent stTwoPages "lib" pageA).links ↔
     "A.html" ∈ (fillMetadataPure optsPlain hostConsistent stTwoPages "lib" pageB).backlinks) :=
  (c2_backlink_consistency_amended optsPlain hostConsistent "lib" stTwoPages [pageA, pageB]
    (by decide) (by decide) (by decide)).2 pageA (List.mem_cons_self _ _) pageB
    (List.mem_cons_of_mem _ (List.mem_cons_self _ _))

end WebExport
